import Mathlib

/-!
Shallow embedding of the ARM/Thumb shift-operand and modified-immediate
decoding utilities of `source/Plugins/Process/Utility/ARMUtils.h`.

Machine integers (`uint32_t`, `uint64_t`) are embedded as `Nat` with explicit
`% 2 ^ 32` (resp. `% 2 ^ 64`) where C truncation matters.  The source enforces
preconditions with `assert`; a violated assertion is embedded as the failure
value `none`, so every fallible function returns an `Option`.

The bit-field helpers `Bits32`, `Bit32`, `UnsignedBits` (from
`InstructionUtils.h`) and `Rotr32` / `SignExtend64` (LLVM) are not part of the
supplied sources; they are modelled from the specification (sections 4.2 and
4.6), as marked in their doc comments.
-/

namespace ARMUtils

/-- Modelled from the spec: the bit-range extractor `ExtractBits` (`Bits32` of
`InstructionUtils.h`, which is not among the sources).  Returns the inclusive
bit range `msbit..lsbit` of `val`, right-justified; `highBit >= lowBit`, both
within `0..31`, else a contract violation (embedded as `none`). -/
def Bits32 (val msbit lsbit : Nat) : Option Nat :=
  if msbit ≤ 31 ∧ lsbit ≤ msbit then
    some ((val >>> lsbit) % 2 ^ (msbit - lsbit + 1))
  else
    none

/-- Modelled from the spec: `ExtractBit(value, bitIndex) =
ExtractBits(value, bitIndex, bitIndex)` (`Bit32` of `InstructionUtils.h`,
which is not among the sources). -/
def Bit32 (val msbit : Nat) : Option Nat :=
  Bits32 val msbit msbit

/-- Modelled from the spec: 32-bit rotate right, "bits wrap around to the top"
(`Rotr32` of `InstructionUtils.h`, which is not among the sources; its C body
is `(bits >> amt) | (bits << ((32 - amt) & 31))` with `amt` in `0..31`). -/
def Rotr32 (bitsVal amt : Nat) : Nat :=
  ((bitsVal >>> amt) ||| ((bitsVal <<< ((32 - amt) % 32)) % 2 ^ 32)) % 2 ^ 32

/-- Modelled from the spec: sign-extension of a 32-bit value to 64 bits
(`llvm::SignExtend64<32>`, which is not among the sources), represented by its
unsigned 64-bit encoding. -/
def SignExtend64_32 (value : Nat) : Nat :=
  if value % 2 ^ 32 < 2 ^ 31 then value % 2 ^ 32
  else value % 2 ^ 32 + (2 ^ 64 - 2 ^ 32)

/-- Modelled from the spec: the 64-bit bit-range extraction used by the
arithmetic shift (`UnsignedBits` of `InstructionUtils.h`, which is not among
the sources): bits `msbit..lsbit` of a 64-bit value, right-justified. -/
def UnsignedBits (value msbit lsbit : Nat) : Nat :=
  (value >>> lsbit) % 2 ^ (msbit - lsbit + 1)

/-- The shifter-operand kinds of `ARMUtils.h` (`ARM_ShifterType`). -/
inductive ARM_ShifterType where
  | SRType_LSL
  | SRType_LSR
  | SRType_ASR
  | SRType_ROR
  | SRType_RRX
  deriving DecidableEq, Repr

export ARM_ShifterType (SRType_LSL SRType_LSR SRType_ASR SRType_ROR SRType_RRX)

/-- `DecodeImmShift(type, imm5, shift_t)` of `ARMUtils.h`: decodes the 2-bit
immediate shift-type selector and normalizes the amount; `type` outside `0..3`
hits `assert(0)` (embedded as `none`). -/
def DecodeImmShift (type imm5 : Nat) : Option (ARM_ShifterType × Nat) :=
  match type with
  | 0 => some (SRType_LSL, imm5)
  | 1 => some (SRType_LSR, if imm5 = 0 then 32 else imm5)
  | 2 => some (SRType_ASR, if imm5 = 0 then 32 else imm5)
  | 3 =>
    if imm5 = 0 then
      some (SRType_RRX, 1)
    else
      some (SRType_ROR, imm5)
  | _ => none

/-- `DecodeRegShift(type)` of `ARMUtils.h`: decodes the 2-bit register shift
selector; `type` outside `0..3` hits `assert(0)` (embedded as `none`). -/
def DecodeRegShift (type : Nat) : Option ARM_ShifterType :=
  match type with
  | 0 => some SRType_LSL
  | 1 => some SRType_LSR
  | 2 => some SRType_ASR
  | 3 => some SRType_ROR
  | _ => none

/-- `LSL_C(value, amount, carry_out)` of `ARMUtils.h`; asserts
`amount > 0 && amount < 32`. -/
def LSL_C (value amount : Nat) : Option (Nat × Nat) :=
  if 0 < amount ∧ amount < 32 then
    (Bit32 value (32 - amount)).map (fun c => ((value <<< amount) % 2 ^ 32, c))
  else
    none

/-- The C right shift `value >> amount` on a `uint32_t`: defined only for
shift amounts below the bit width; a shift by 32 or more is undefined
behavior in C++, embedded as failure. -/
def shr32 (value amount : Nat) : Option Nat :=
  if amount < 32 then some (value >>> amount) else none

/-- `LSR_C(value, amount, carry_out)` of `ARMUtils.h`; asserts
`amount > 0 && amount <= 32`, computes the carry out as
`Bit32(value, amount - 1)` and returns `value >> amount`, a `uint32_t` shift
that is undefined behavior at `amount == 32`. -/
def LSR_C (value amount : Nat) : Option (Nat × Nat) :=
  if 0 < amount ∧ amount ≤ 32 then do
    let c ← Bit32 value (amount - 1)
    let r ← shr32 value amount
    pure (r, c)
  else
    none

/-- `ASR_C(value, amount, carry_out)` of `ARMUtils.h`; asserts
`amount > 0 && amount <= 32`; sign-extends to 64 bits and extracts bits
`amount+31 .. amount`. -/
def ASR_C (value amount : Nat) : Option (Nat × Nat) :=
  if 0 < amount ∧ amount ≤ 32 then
    (Bit32 value (amount - 1)).map
      (fun c => (UnsignedBits (SignExtend64_32 value) (amount + 31) amount, c))
  else
    none

/-- `ROR_C(value, amount, carry_out)` of `ARMUtils.h`; asserts
`amount > 0 && amount < 32`; the carry out is bit 31 of the original value. -/
def ROR_C (value amount : Nat) : Option (Nat × Nat) :=
  if 0 < amount ∧ amount < 32 then
    (Bit32 value 31).map (fun c => (Rotr32 value amount, c))
  else
    none

/-- `RRX_C(value, carry_in, carry_out)` of `ARMUtils.h`:
`carry_out = Bit32(value, 0)`;
`result = Bit32(carry_in, 0) << 31 | Bits32(value, 31, 1)`. -/
def RRX_C (value carry_in : Nat) : Option (Nat × Nat) := do
  let co ← Bit32 value 0
  let cb ← Bit32 carry_in 0
  let hi ← Bits32 value 31 1
  pure (((cb <<< 31) ||| hi) % 2 ^ 32, co)

/-- `Shift_C(value, type, amount, carry_in, carry_out)` of `ARMUtils.h`.
Asserts `type != SRType_RRX || amount == 1`; with `amount == 0` it returns the
value and carry unchanged; otherwise it dispatches on `type`.  Note that the
source's `SRType_RRX` case calls `RRX_C(value, amount, carry_out)`, passing
`amount` where `RRX_C` expects the carry in. -/
def Shift_C (value : Nat) (type : ARM_ShifterType) (amount carry_in : Nat) :
    Option (Nat × Nat) :=
  if type = SRType_RRX ∧ amount ≠ 1 then
    none
  else if amount = 0 then
    some (value, carry_in)
  else
    match type with
    | SRType_LSL => LSL_C value amount
    | SRType_LSR => LSR_C value amount
    | SRType_ASR => ASR_C value amount
    | SRType_ROR => ROR_C value amount
    | SRType_RRX => RRX_C value amount

/-- `Shift(value, type, amount, carry_in)` of `ARMUtils.h`: `Shift_C`
discarding the carry out. -/
def Shift (value : Nat) (type : ARM_ShifterType) (amount carry_in : Nat) :
    Option Nat :=
  (Shift_C value type amount carry_in).map Prod.fst

/-- `bits(val, msbit, lsbit)` of `ARMUtils.h`: forwards to `Bits32`. -/
def bits (val msbit lsbit : Nat) : Option Nat :=
  Bits32 val msbit lsbit

/-- `bit(val, msbit)` of `ARMUtils.h`: `bits(val, msbit, msbit)`. -/
def bit (val msbit : Nat) : Option Nat :=
  bits val msbit msbit

/-- `ror(val, N, shift)` of `ARMUtils.h`:
`m = shift % N; return (val >> m) | (val << (N - m));` in `uint32_t`
arithmetic. -/
def ror (val N shift : Nat) : Nat :=
  let m := shift % N
  ((val >>> m) ||| ((val <<< (N - m)) % 2 ^ 32)) % 2 ^ 32

/-- `ARMExpandImm_C(val, carry_in, carry_out)` of `ARMUtils.h`: expands an
ARM modified immediate; low 8 bits rotated right by twice the high 4 bits. -/
def ARMExpandImm_C (val carry_in : Nat) : Option (Nat × Nat) := do
  let imm ← bits val 7 0
  let rot ← bits val 11 8
  let amt := 2 * rot
  if amt = 0 then
    pure (imm, carry_in)
  else
    let imm32 := ror imm 32 amt
    let co ← Bit32 imm32 31
    pure (imm32, co)

/-- `ARMExpandImm(val)` of `ARMUtils.h`: `ARMExpandImm_C` with carry in 0,
discarding the carry out. -/
def ARMExpandImm (val : Nat) : Option Nat :=
  (ARMExpandImm_C val 0).map Prod.fst

/-- `ThumbExpandImm_C(val, carry_in, carry_out)` of `ARMUtils.h`: gathers the
scattered `i:imm3:imm8` fields into a 12-bit immediate and expands it.  Note
that the source reads the replication selector with `bits(imm12, 8, 9)`
(msbit 8, lsbit 9). -/
def ThumbExpandImm_C (val carry_in : Nat) : Option (Nat × Nat) := do
  let i ← bit val 26
  let imm3 ← bits val 14 12
  let abcdefgh ← bits val 7 0
  let imm12 := (((i <<< 11) % 2 ^ 32) ||| ((imm3 <<< 8) % 2 ^ 32) ||| abcdefgh) % 2 ^ 32
  let top ← bits imm12 11 10
  if top = 0 then
    let sel ← bits imm12 8 9
    let imm32 ←
      match sel with
      | 0 => some abcdefgh
      | 1 => some ((((abcdefgh <<< 16) % 2 ^ 32) ||| abcdefgh) % 2 ^ 32)
      | 2 => some ((((abcdefgh <<< 24) % 2 ^ 32) ||| ((abcdefgh <<< 8) % 2 ^ 32)) % 2 ^ 32)
      | 3 => some ((((abcdefgh <<< 24) % 2 ^ 32) ||| ((abcdefgh <<< 16) % 2 ^ 32) |||
                    ((abcdefgh <<< 8) % 2 ^ 32) ||| abcdefgh) % 2 ^ 32)
      | _ => none
    pure (imm32, carry_in)
  else
    let low7 ← bits imm12 6 0
    let unrotated_value := (0x80 ||| low7) % 2 ^ 32
    let rotAmt ← bits imm12 11 7
    let imm32 := ror unrotated_value 32 rotAmt
    let co ← Bit32 imm32 31
    pure (imm32, co)

/-- `ThumbExpandImm(val)` of `ARMUtils.h`: `ThumbExpandImm_C` with carry in 0,
discarding the carry out. -/
def ThumbExpandImm (val : Nat) : Option Nat :=
  (ThumbExpandImm_C val 0).map Prod.fst

/-- `ThumbImm12(val)` of `ARMUtils.h`: gathers `i:imm3:imm8` into the 12-bit
immediate without expansion. -/
def ThumbImm12 (val : Nat) : Option Nat := do
  let i ← bit val 26
  let imm3 ← bits val 14 12
  let imm8 ← bits val 7 0
  pure ((((i <<< 11) % 2 ^ 32) ||| ((imm3 <<< 8) % 2 ^ 32) ||| imm8) % 2 ^ 32)

/-- `ThumbImmScaled(val)` of `ARMUtils.h`: a 7-bit field scaled by 4. -/
def ThumbImmScaled (val : Nat) : Option Nat := do
  let imm7 ← bits val 6 0
  pure ((imm7 * 4) % 2 ^ 32)

/-- `BadReg(n)` of `ARMUtils.h`: register numbers 13 and 15 are forbidden. -/
def BadReg (n : Nat) : Bool :=
  n == 13 || n == 15

/-- Written from the spec's words (section 4.1): the fixed decode table for
immediate shift operands, for comparison with `DecodeImmShift`. -/
def specImmShiftTable (typeCode imm5 : Nat) : ARM_ShifterType × Nat :=
  if typeCode = 0 then (SRType_LSL, imm5)
  else if typeCode = 1 then (SRType_LSR, if imm5 = 0 then 32 else imm5)
  else if typeCode = 2 then (SRType_ASR, if imm5 = 0 then 32 else imm5)
  else if imm5 = 0 then (SRType_RRX, 1)
  else (SRType_ROR, imm5)

/-- Written from the spec's words: rotation of a 32-bit value right by
`amt` bits (for `0 < amt < 32`), "bits wrap around to the top": the low `amt`
bits move to the top, the rest shift down. -/
def specRotateRight32 (x amt : Nat) : Nat :=
  x / 2 ^ amt + x % 2 ^ amt * 2 ^ (32 - amt)

/-! Helper lemmas about the embedded primitives. -/

lemma bits_eq_of_le (val msbit lsbit : Nat) (h1 : msbit ≤ 31) (h2 : lsbit ≤ msbit) :
    bits val msbit lsbit = some ((val >>> lsbit) % 2 ^ (msbit - lsbit + 1)) := by
  unfold bits Bits32
  rw [if_pos ⟨h1, h2⟩]

lemma bit32_eq (y i : Nat) (hi : i ≤ 31) :
    Bit32 y i = some ((y >>> i) % 2) := by
  unfold Bit32 Bits32
  rw [if_pos ⟨hi, Nat.le_refl i⟩]
  simp

lemma bit31_of_lt (y : Nat) (hy : y < 2 ^ 32) : (y >>> 31) % 2 = y / 2 ^ 31 := by
  rw [Nat.shiftRight_eq_div_pow]
  have h : y / 2 ^ 31 < 2 := by
    apply Nat.div_lt_of_lt_mul
    calc y < 2 ^ 32 := hy
    _ = 2 ^ 31 * 2 := by norm_num
  exact Nat.mod_eq_of_lt h

lemma two_pow_split (a : Nat) (ha : a ≤ 32) : 2 ^ a * 2 ^ (32 - a) = 2 ^ 32 := by
  rw [← pow_add]
  congr 1
  omega

lemma rot_sum_lt (x a : Nat) (hx : x < 2 ^ 32) (ha : a ≤ 32) :
    specRotateRight32 x a < 2 ^ 32 := by
  unfold specRotateRight32
  have hmodlt : x % 2 ^ a < 2 ^ a := Nat.mod_lt _ (Nat.two_pow_pos a)
  have hdivlt : x / 2 ^ a < 2 ^ (32 - a) := by
    apply Nat.div_lt_of_lt_mul
    calc x < 2 ^ 32 := hx
    _ = 2 ^ a * 2 ^ (32 - a) := (two_pow_split a ha).symm
  have h2 : (x % 2 ^ a + 1) * 2 ^ (32 - a) ≤ 2 ^ a * 2 ^ (32 - a) :=
    Nat.mul_le_mul_right _ (Nat.succ_le_of_lt hmodlt)
  rw [Nat.add_mul, Nat.one_mul, two_pow_split a ha] at h2
  linarith

lemma rot_core (x a : Nat) (hx : x < 2 ^ 32) (ha0 : 0 < a) (ha : a < 32) :
    ((x >>> a) ||| ((x <<< (32 - a)) % 2 ^ 32)) % 2 ^ 32 = specRotateRight32 x a := by
  have hdivlt : x / 2 ^ a < 2 ^ (32 - a) := by
    apply Nat.div_lt_of_lt_mul
    calc x < 2 ^ 32 := hx
    _ = 2 ^ a * 2 ^ (32 - a) := (two_pow_split a (by omega)).symm
  have hshl : (x <<< (32 - a)) % 2 ^ 32 = 2 ^ (32 - a) * (x % 2 ^ a) := by
    rw [Nat.shiftLeft_eq, ← two_pow_split a (by omega),
      Nat.mul_comm (2 ^ a) (2 ^ (32 - a)), Nat.mul_comm x (2 ^ (32 - a)),
      Nat.mul_mod_mul_left]
  rw [Nat.shiftRight_eq_div_pow, hshl, Nat.lor_comm, ← Nat.mul_add_lt_is_or hdivlt]
  have hlt : specRotateRight32 x a < 2 ^ 32 := rot_sum_lt x a hx (by omega)
  unfold specRotateRight32 at hlt ⊢
  have hsum : 2 ^ (32 - a) * (x % 2 ^ a) + x / 2 ^ a < 2 ^ 32 := by
    have hc : 2 ^ (32 - a) * (x % 2  ^ a) = x % 2 ^ a * 2 ^ (32 - a) := Nat.mul_comm _ _
    linarith
  rw [Nat.mod_eq_of_lt hsum]
  ring

lemma ror_eq_spec (x a : Nat) (hx : x < 2 ^ 32) (ha0 : 0 < a) (ha : a < 32) :
    ror x 32 a = specRotateRight32 x a := by
  have hm : a % 32 = a := Nat.mod_eq_of_lt ha
  simp only [ror, hm]
  exact rot_core x a hx ha0 ha

lemma rotr32_eq_spec (x a : Nat) (hx : x < 2 ^ 32) (ha0 : 0 < a) (ha : a < 32) :
    Rotr32 x a = specRotateRight32 x a := by
  have hm : (32 - a) % 32 = 32 - a := Nat.mod_eq_of_lt (by omega)
  rw [Rotr32, hm]
  exact rot_core x a hx ha0 ha

/-! Claim theorems. -/

/-- C1: the claim says the RRX case of `Shift_C` places the carry in into bit
31 (so with carry in 0 the result's bit 31 is 0).  On the code this fails: the
source calls `RRX_C(value, amount, carry_out)`, passing the amount (always 1
for RRX) where `RRX_C` expects the carry in, so bit 31 of the result is always
1.  At value 0, carry in 0, `Shift_C` returns `2 ^ 31` while `RRX_C` itself
with carry in 0 returns 0 as the claim describes. -/
theorem Shift_C_RRX_passes_amount_as_carry :
    Shift_C 0 SRType_RRX 1 0 = some (2 ^ 31, 0) ∧ RRX_C 0 0 = some (0, 0) := by
  decide

/-- C2: the claim says the no-rotation branch of `ThumbExpandImm_C` selects a
replication pattern by bits 9-8 of the gathered field (selector 3 with byte
0xAB giving 0xABABABAB).  On the code this fails: the branch reads the
selector as `bits(imm12, 8, 9)`, msbit 8 below lsbit 9, violating the
extractor's precondition, so the call fails instead of producing a value.
Input word 0x30AB gathers to field 0x3AB (top2 = 0, selector 3, byte 0xAB). -/
theorem ThumbExpandImm_C_selector_read_fails :
    ThumbExpandImm_C 0x30AB 0 = none := by
  decide

/-- C3: for every typeCode in 0..3 and imm5 in 0..31, `DecodeImmShift` returns
exactly the (kind, amount) pair of the fixed table of the spec, and in
particular `DecodeImmShift(1,0) = (LSR,32)`, `DecodeImmShift(3,0) = (RRX,1)`,
`DecodeImmShift(3,5) = (ROR,5)`. -/
theorem DecodeImmShift_matches_table (type imm5 : Nat)
    (ht : type ≤ 3) (_hi : imm5 ≤ 31) :
    DecodeImmShift type imm5 = some (specImmShiftTable type imm5) ∧
    DecodeImmShift 1 0 = some (SRType_LSR, 32) ∧
    DecodeImmShift 3 0 = some (SRType_RRX, 1) ∧
    DecodeImmShift 3 5 = some (SRType_ROR, 5) := by
  refine ⟨?_, by decide, by decide, by decide⟩
  interval_cases type <;> by_cases h0 : imm5 = 0 <;>
    simp [DecodeImmShift, specImmShiftTable, h0]

/-- C3 witness: the table theorem instantiated at typeCode 3, imm5 0. -/
theorem DecodeImmShift_matches_table_witness :
    (3 : Nat) ≤ 3 ∧ (0 : Nat) ≤ 31 ∧
    (DecodeImmShift 3 0 = some (specImmShiftTable 3 0) ∧
     DecodeImmShift 1 0 = some (SRType_LSR, 32) ∧
     DecodeImmShift 3 0 = some (SRType_RRX, 1) ∧
     DecodeImmShift 3 5 = some (SRType_ROR, 5)) :=
  ⟨by decide, by decide, DecodeImmShift_matches_table 3 0 (by decide) (by decide)⟩

/-- C8 counterexample: the claim says the normalized amount always lies in
1..32, but `DecodeImmShift` with typeCode 0 (LSL) and imm5 0 returns amount 0,
which is not at least 1. -/
theorem DecodeImmShift_amount_zero_cex :
    DecodeImmShift 0 0 = some (SRType_LSL, 0) ∧ ¬ (1 ≤ (0 : Nat)) := by
  decide

/-- C8 amended: for every typeCode in 0..3 and imm5 in 0..31 the normalized
amount lies in 0..32, is 0 only for kind LSL with imm5 = 0, equals exactly 1
whenever the decoded kind is RRX, and is at least 1 for every kind other than
LSL. -/
theorem DecodeImmShift_amount_bounds (type imm5 : Nat)
    (ht : type ≤ 3) (_hi : imm5 ≤ 31) (k : ARM_ShifterType) (a : Nat)
    (h : DecodeImmShift type imm5 = some (k, a)) :
    a ≤ 32 ∧ (k = SRType_RRX → a = 1) ∧
    (a = 0 → k = SRType_LSL ∧ imm5 = 0) ∧ (k ≠ SRType_LSL → 1 ≤ a) := by
  interval_cases type <;> by_cases h0 : imm5 = 0 <;>
    simp [DecodeImmShift, h0] at h <;>
    obtain ⟨hk, ha⟩ := h <;> subst hk <;> subst ha <;>
    refine ⟨by omega, by simp, fun hz => ?_, by simp <;> omega⟩ <;> simp_all

/-- C8 witness: the amended bounds instantiated at typeCode 3, imm5 0,
which decodes to (RRX, 1). -/
theorem DecodeImmShift_amount_bounds_witness :
    (1 : Nat) ≤ 32 ∧ (SRType_RRX = SRType_RRX → (1 : Nat) = 1) ∧
    ((1 : Nat) = 0 → SRType_RRX = SRType_LSL ∧ (0 : Nat) = 0) ∧
    (SRType_RRX ≠ SRType_LSL → 1 ≤ (1 : Nat)) :=
  DecodeImmShift_amount_bounds 3 0 (by decide) (by decide) SRType_RRX 1 (by decide)

/-- C9: every call with typeCode outside 0..3 fails in both decoders
(`assert(0)` on the invalid-encoding path, embedded as `none`), and the
bit-range extractor fails whenever msbit < lsbit or msbit is outside 0..31,
rather than returning a number. -/
theorem invalid_inputs_yield_failure (type imm5 val msbit lsbit : Nat)
    (ht : 3 < type) (hb : ¬ (msbit ≤ 31 ∧ lsbit ≤ msbit)) :
    DecodeImmShift type imm5 = none ∧ DecodeRegShift type = none ∧
    Bits32 val msbit lsbit = none := by
  obtain ⟨n, rfl⟩ : ∃ n, type = n + 4 := ⟨type - 4, by omega⟩
  refine ⟨rfl, rfl, ?_⟩
  unfold Bits32
  rw [if_neg hb]

/-- C9 witness: typeCode 4 fails in both decoders and the extractor fails at
msbit 8, lsbit 9. -/
theorem invalid_inputs_yield_failure_witness :
    DecodeImmShift 4 0 = none ∧ DecodeRegShift 4 = none ∧ Bits32 0 8 9 = none :=
  invalid_inputs_yield_failure 4 0 0 8 9 (by decide) (by decide)

/-- C4: for every 32-bit value and amount in 1..31, `ROR_C` returns the value
rotated right by the amount (low bits wrap to the top) and a carry out equal
to bit 31 of the original, pre-rotation value, independent of the amount. -/
theorem ROR_C_rotates_and_carries_bit31 (value amount : Nat)
    (hv : value < 2 ^ 32) (h1 : 1 ≤ amount) (h2 : amount ≤ 31) :
    ROR_C value amount = some (specRotateRight32 value amount, value / 2 ^ 31) := by
  unfold ROR_C
  rw [if_pos ⟨by omega, by omega⟩, bit32_eq value 31 (by omega)]
  rw [rotr32_eq_spec value amount hv (by omega) (by omega), bit31_of_lt value hv]
  rfl

/-- C4 witness: rotating 0x80000001 right by 4 gives 0x18000000 with carry out
1, the top bit of the original value. -/
theorem ROR_C_rotates_and_carries_bit31_witness :
    (0x80000001 : Nat) < 2 ^ 32 ∧ (1 : Nat) ≤ 4 ∧ (4 : Nat) ≤ 31 ∧
    ROR_C 0x80000001 4 = some (specRotateRight32 0x80000001 4, 0x80000001 / 2 ^ 31) :=
  ⟨by norm_num, by norm_num, by norm_num,
    ROR_C_rotates_and_carries_bit31 0x80000001 4 (by norm_num) (by norm_num) (by norm_num)⟩

/-- C7: the claim includes the boundary amount 32 and says it yields 0.  The
source's own assert admits `amount <= 32` (and its decoder produces LSR with
amount 32), but the body returns `value >> amount`, a `uint32_t` shift that at
amount 32 is a shift by the full width: undefined behavior in C++, embedded
as failure, so the claimed boundary result 0 is not established by the
program.  At value 0xFFFFFFFF the shift fails for amount 32 while amount 31
still returns the claimed zero-filled shift 1 with carry out bit 30 = 1. -/
theorem LSR_C_boundary_shift_is_undefined :
    LSR_C 0xFFFFFFFF 32 = none ∧ LSR_C 0xFFFFFFFF 31 = some (1, 1) := by
  decide

/-- C5: for every 12-bit field and every carry in, `ARMExpandImm_C` with
rotate amount 2 * (high 4 bits) equal to 0 returns the low 8 bits
zero-extended and the carry in unchanged; with a nonzero rotate amount it
returns the low 8 bits rotated right by that amount within 32 bits, with
carry out bit 31 of the result; in particular expanding 0x4FF with carry in 0
yields (0xFF000000, 1). -/
theorem ARMExpandImm_C_expands (val c : Nat) (hv : val < 2 ^ 12) :
    (val / 2 ^ 8 = 0 → ARMExpandImm_C val c = some (val % 2 ^ 8, c)) ∧
    (val / 2 ^ 8 ≠ 0 →
      ARMExpandImm_C val c =
        some (specRotateRight32 (val % 2 ^ 8) (2 * (val / 2 ^ 8)),
              specRotateRight32 (val % 2 ^ 8) (2 * (val / 2 ^ 8)) / 2 ^ 31)) ∧
    ARMExpandImm_C 0x4FF 0 = some (0xFF000000, 1) := by
  have hlow : bits val 7 0 = some (val % 2 ^ 8) := by
    rw [bits_eq_of_le val 7 0 (by omega) (by omega), Nat.shiftRight_eq_div_pow]
    norm_num
  have hdiv4 : val / 2 ^ 8 < 2 ^ 4 := by
    apply Nat.div_lt_of_lt_mul
    calc val < 2 ^ 12 := hv
    _ = 2 ^ 8 * 2 ^ 4 := by norm_num
  have hhi : bits val 11 8 = some (val / 2 ^ 8) := by
    rw [bits_eq_of_le val 11 8 (by omega) (by omega), Nat.shiftRight_eq_div_pow]
    have he : (11 : Nat) - 8 + 1 = 4 := by norm_num
    rw [he, Nat.mod_eq_of_lt hdiv4]
  have hx : val % 2 ^ 8 < 2 ^ 32 := by
    have := Nat.mod_lt val (show 0 < 2 ^ 8 by norm_num)
    omega
  refine ⟨fun hz => ?_, fun hnz => ?_, by decide⟩
  · unfold ARMExpandImm_C
    rw [hlow, hhi]
    simp only [Option.bind_eq_bind, Option.some_bind]
    rw [if_pos (by omega)]
    rfl
  · unfold ARMExpandImm_C
    rw [hlow, hhi]
    simp only [Option.bind_eq_bind, Option.some_bind]
    rw [if_neg (by omega)]
    rw [ror_eq_spec (val % 2 ^ 8) (2 * (val / 2 ^ 8)) hx (by omega) (by omega)]
    rw [bit32_eq _ 31 (by omega),
      bit31_of_lt _ (rot_sum_lt (val % 2 ^ 8) (2 * (val / 2 ^ 8)) hx (by omega))]
    simp only [Option.some_bind, Option.pure_def]

/-- C5 witness: the expansion theorem instantiated at field 0x4FF with carry
in 0: the high four bits give rotate amount 8, so 0xFF is rotated right by 8
into 0xFF000000 with carry out 1. -/
theorem ARMExpandImm_C_expands_witness :
    (0x4FF : Nat) < 2 ^ 12 ∧
    (((0x4FF : Nat) / 2 ^ 8 = 0 → ARMExpandImm_C 0x4FF 0 = some (0x4FF % 2 ^ 8, 0)) ∧
     ((0x4FF : Nat) / 2 ^ 8 ≠ 0 →
       ARMExpandImm_C 0x4FF 0 =
         some (specRotateRight32 (0x4FF % 2 ^ 8) (2 * (0x4FF / 2 ^ 8)),
               specRotateRight32 (0x4FF % 2 ^ 8) (2 * (0x4FF / 2 ^ 8)) / 2 ^ 31)) ∧
     ARMExpandImm_C 0x4FF 0 = some (0xFF000000, 1)) :=
  ⟨by norm_num, ARMExpandImm_C_expands 0x4FF 0 (by norm_num)⟩

lemma thumb_rotated_branch_aux (val c f : Nat)
    (hf : ThumbImm12 val = some f) (htop : f / 2 ^ 10 ≠ 0) :
    ThumbExpandImm_C val c =
      some (specRotateRight32 (0x80 ||| f % 2 ^ 7) (f / 2 ^ 7),
            specRotateRight32 (0x80 ||| f % 2 ^ 7) (f / 2 ^ 7) / 2 ^ 31) := by
  have hbit26 : bit val 26 = some ((val >>> 26) % 2) := by
    unfold bit
    rw [bits_eq_of_le val 26 26 (by omega) (by omega)]
    norm_num
  have h1412 : bits val 14 12 = some ((val >>> 12) % 2 ^ 3) := by
    rw [bits_eq_of_le val 14 12 (by omega) (by omega)]
  have h70 : bits val 7 0 = some ((val >>> 0) % 2 ^ 8) := by
    rw [bits_eq_of_le val 7 0 (by omega) (by omega)]
  unfold ThumbImm12 at hf
  rw [hbit26, h1412, h70] at hf
  simp only [Option.bind_eq_bind, Option.some_bind, Option.pure_def,
    Option.some.injEq] at hf
  have hf12 : f < 2 ^ 12 := by
    rw [← hf]
    refine lt_of_le_of_lt (Nat.mod_le _ _) ?_
    refine Nat.or_lt_two_pow (Nat.or_lt_two_pow ?_ ?_) ?_
    · refine lt_of_le_of_lt (Nat.mod_le _ _) ?_
      rw [Nat.shiftLeft_eq]
      have : (val >>> 26) % 2 < 2 := Nat.mod_lt _ (by norm_num)
      omega
    · refine lt_of_le_of_lt (Nat.mod_le _ _) ?_
      rw [Nat.shiftLeft_eq]
      have : (val >>> 12) % 2 ^ 3 < 2 ^ 3 := Nat.mod_lt _ (by norm_num)
      omega
    · omega
  have htopv : bits f 11 10 = some (f / 2 ^ 10) := by
    rw [bits_eq_of_le f 11 10 (by omega) (by omega), Nat.shiftRight_eq_div_pow]
    have he : (11 : Nat) - 10 + 1 = 2 := by norm_num
    rw [he, Nat.mod_eq_of_lt (by omega)]
  have hlow7 : bits f 6 0 = some (f % 2 ^ 7) := by
    rw [bits_eq_of_le f 6 0 (by omega) (by omega), Nat.shiftRight_eq_div_pow]
    norm_num
  have hrot : bits f 11 7 = some (f / 2 ^ 7) := by
    rw [bits_eq_of_le f 11 7 (by omega) (by omega), Nat.shiftRight_eq_div_pow]
    have he : (11 : Nat) - 7 + 1 = 5 := by norm_num
    rw [he, Nat.mod_eq_of_lt (by omega)]
  have hun_lt : 0x80 ||| f % 2 ^ 7 < 2 ^ 8 :=
    Nat.or_lt_two_pow (by norm_num) (by omega)
  have hun32 : 0x80 ||| f % 2 ^ 7 < 2 ^ 32 := lt_trans hun_lt (by norm_num)
  have hun_mod : (0x80 ||| f % 2 ^ 7) % 2 ^ 32 = 0x80 ||| f % 2 ^ 7 :=
    Nat.mod_eq_of_lt hun32
  unfold ThumbExpandImm_C
  rw [hbit26, h1412, h70]
  simp only [Option.bind_eq_bind, Option.some_bind]
  rw [hf, htopv]
  simp only [Option.some_bind]
  rw [if_neg htop, hlow7]
  simp only [Option.some_bind]
  rw [hrot]
  simp only [Option.some_bind]
  rw [hun_mod, ror_eq_spec (0x80 ||| f % 2 ^ 7) (f / 2 ^ 7) hun32 (by omega) (by omega)]
  rw [bit32_eq _ 31 (by omega),
    bit31_of_lt _ (rot_sum_lt (0x80 ||| f % 2 ^ 7) (f / 2 ^ 7) hun32 (by omega))]
  simp only [Option.some_bind, Option.pure_def]

/-- C6: for every input word whose gathered 12-bit field (`ThumbImm12`) has
bits 11-10 nonzero and every carry in, `ThumbExpandImm_C` returns (0x80
bitwise-or bits 6-0 of the field) rotated right within 32 bits by the 5-bit
amount in bits 11-7 of the field, with carry out bit 31 of the result and the
carry in ignored; in particular the input word 0x4000 (i = 0, imm3 = 0b100,
byte = 0) yields (0x80000000, carry out 1). -/
theorem ThumbExpandImm_C_rotated_branch (val c f : Nat)
    (hf : ThumbImm12 val = some f) (htop : f / 2 ^ 10 ≠ 0) :
    ThumbExpandImm_C val c =
      some (specRotateRight32 (0x80 ||| f % 2 ^ 7) (f / 2 ^ 7),
            specRotateRight32 (0x80 ||| f % 2 ^ 7) (f / 2 ^ 7) / 2 ^ 31) ∧
    ThumbExpandImm_C 0x4000 c = some (0x80000000, 1) := by
  refine ⟨thumb_rotated_branch_aux val c f hf htop, ?_⟩
  rw [thumb_rotated_branch_aux 0x4000 c 0x400 (by decide) (by decide)]
  decide

/-- C6 witness: the rotated-branch theorem instantiated at input word 0x4000
(gathered field 0x400) with carry in 0. -/
theorem ThumbExpandImm_C_rotated_branch_witness :
    ThumbImm12 0x4000 = some 0x400 ∧ (0x400 : Nat) / 2 ^ 10 ≠ 0 ∧
    (ThumbExpandImm_C 0x4000 0 =
       some (specRotateRight32 (0x80 ||| 0x400 % 2 ^ 7) (0x400 / 2 ^ 7),
             specRotateRight32 (0x80 ||| 0x400 % 2 ^ 7) (0x400 / 2 ^ 7) / 2 ^ 31) ∧
     ThumbExpandImm_C 0x4000 0 = some (0x80000000, 1)) :=
  ⟨by decide, by decide,
    ThumbExpandImm_C_rotated_branch 0x4000 0 0x400 (by decide) (by decide)⟩

lemma armExpand_fst_carry_const (val c c' : Nat) :
    (ARMExpandImm_C val c).map Prod.fst = (ARMExpandImm_C val c').map Prod.fst := by
  unfold ARMExpandImm_C
  cases h1 : bits val 7 0 with
  | none => rfl
  | some a =>
    cases h2 : bits val 11 8 with
    | none => rfl
    | some b =>
      simp only [Option.bind_eq_bind, Option.some_bind]
      split
      · rfl
      · cases h3 : Bit32 (ror a 32 (2 * b)) 31 <;> rfl

lemma thumbExpand_fst_carry_const (val c c' : Nat) :
    (ThumbExpandImm_C val c).map Prod.fst = (ThumbExpandImm_C val c').map Prod.fst := by
  unfold ThumbExpandImm_C
  cases h1 : bit val 26 with
  | none => rfl
  | some i =>
    cases h2 : bits val 14 12 with
    | none => rfl
    | some m3 =>
      cases h3 : bits val 7 0 with
      | none => rfl
      | some ab =>
        simp only [Option.bind_eq_bind, Option.some_bind]
        generalize ((i <<< 11) % 2 ^ 32 ||| (m3 <<< 8) % 2 ^ 32 ||| ab) % 2 ^ 32 = g
        cases h4 : bits g 11 10 with
        | none => rfl
        | some top =>
          simp only [Option.some_bind]
          split
          · cases h5 : bits g 8 9 with
            | none => rfl
            | some sel => rcases sel with _ | _ | _ | _ | s <;> rfl
          · cases h6 : bits g 6 0 with
            | none => rfl
            | some l => simp only [Option.some_bind]

/-- C10: for every input word and any two carry-in values, `ARMExpandImm_C`
and `ThumbExpandImm_C` produce the same expanded immediate (the carry in
influences only the carry out), and the no-carry wrappers `ARMExpandImm` and
`ThumbExpandImm`, which call with carry in 0, return that same expansion
regardless of the actual carry state. -/
theorem expandImm_carry_in_independent (val c1 c2 : Nat) :
    (ARMExpandImm_C val c1).map Prod.fst = (ARMExpandImm_C val c2).map Prod.fst ∧
    (ThumbExpandImm_C val c1).map Prod.fst = (ThumbExpandImm_C val c2).map Prod.fst ∧
    ARMExpandImm val = (ARMExpandImm_C val c1).map Prod.fst ∧
    ThumbExpandImm val = (ThumbExpandImm_C val c1).map Prod.fst :=
  ⟨armExpand_fst_carry_const val c1 c2, thumbExpand_fst_carry_const val c1 c2,
   armExpand_fst_carry_const val 0 c1, thumbExpand_fst_carry_const val 0 c1⟩

end ARMUtils
